import Mathlib

/-!
Verification development for the vm-auto-deployer repository.

The development shallowly embeds the change-detection and deferred-commit
pipeline of src/change_tracker.py and the daily fallback-commit logic of
src/daily_commit_guarantor.py, and proves the specified properties about
those embeddings.  Filesystem contents, subprocess outcomes and the sqlite
tables are made explicit: the two database tables (file_hashes, changes)
become lists of rows, the working tree becomes a list of (relative path,
content hash) pairs, and each git subprocess outcome becomes a boolean field
of an environment record.
-/

namespace VMAutoDeployer

/-- A row of the sqlite table file_hashes of change_tracker.py: the
UNIQUE(project, filepath) key and the stored content hash. -/
structure FileHashEntry where
  project : String
  filepath : String
  hash : String
deriving DecidableEq, Repr

/-- A change record as built in scan_project of change_tracker.py: the dict
with keys project, filepath, type and description. -/
structure ChangeRec where
  project : String
  filepath : String
  type : String
  description : String
deriving DecidableEq, Repr

/-- The added-file record built in scan_project. -/
def mkAdded (project relPath : String) : ChangeRec :=
  ⟨project, relPath, "added", "New file: " ++ relPath⟩

/-- The modified-file record built in scan_project. -/
def mkModified (project relPath : String) : ChangeRec :=
  ⟨project, relPath, "modified", "Modified: " ++ relPath⟩

/-- The SELECT hash FROM file_hashes WHERE project=? AND filepath=? query
followed by fetchone: returns the hash of the first matching row. -/
def lookupHash : List FileHashEntry → String → String → Option String
  | [], _, _ => none
  | e :: rest, p, r =>
      if e.project = p ∧ e.filepath = r then some e.hash else lookupHash rest p r

/-- The INSERT INTO file_hashes statement: appends a fresh row. -/
def insertHash (db : List FileHashEntry) (p r h : String) : List FileHashEntry :=
  db ++ [⟨p, r, h⟩]

/-- The UPDATE file_hashes SET hash=? WHERE project=? AND filepath=?
statement: rewrites the hash of every matching row, in place. -/
def updateHash (db : List FileHashEntry) (p r h : String) : List FileHashEntry :=
  db.map (fun e => if e.project = p ∧ e.filepath = r then { e with hash := h } else e)

/-- One iteration of the per-file loop of scan_project: the file is given as
its (relative path, content hash) pair, the state is the file_hashes table
paired with the list of change records accumulated so far.  Absent row:
append an added record and INSERT; row with a different hash: append a
modified record and UPDATE; row with an equal hash: do nothing. -/
def scanStep (p : String) (st : List FileHashEntry × List ChangeRec)
    (f : String × String) : List FileHashEntry × List ChangeRec :=
  match lookupHash st.1 p f.1 with
  | none => (insertHash st.1 p f.1 f.2, st.2 ++ [mkAdded p f.1])
  | some h0 =>
      if h0 = f.2 then st
      else (updateHash st.1 p f.1 f.2, st.2 ++ [mkModified p f.1])

/-- The per-file loop of scan_project run over a list of surviving files,
starting from a given table-and-records state. -/
def scanGo (p : String) (st : List FileHashEntry × List ChangeRec)
    (files : List (String × String)) : List FileHashEntry × List ChangeRec :=
  files.foldl (scanStep p) st

/-- scan_project of change_tracker.py, with the filesystem made explicit:
files is the list of (relative path, content hash) pairs of the files that
survived the include/exclude filters and whose hash was computable.  Returns
the updated file_hashes table and the emitted change records. -/
def scan_project (p : String) (files : List (String × String))
    (store : List FileHashEntry) : List FileHashEntry × List ChangeRec :=
  scanGo p (store, []) files

/-- A row of the sqlite table changes of change_tracker.py: the change
queue, with the integer primary key and the committed flag. -/
structure QueueEntry where
  id : Nat
  project : String
  filepath : String
  change_type : String
  description : String
  committed : Bool
deriving DecidableEq, Repr

/-- The two sqlite tables created by init_db, as the persistent state of
the pipeline. -/
structure DB where
  file_hashes : List FileHashEntry
  changes : List QueueEntry
deriving DecidableEq, Repr

/-- get_pending_changes of change_tracker.py: the rows of changes with
committed=0, in creation (list) order. -/
def get_pending_changes (queue : List QueueEntry) : List QueueEntry :=
  queue.filter (fun e => e.committed = false)

/-- mark_committed of change_tracker.py: one UPDATE changes SET committed=1
WHERE id=? statement per id in the list, executed left to right. -/
def mark_committed (queue : List QueueEntry) (ids : List Nat) : List QueueEntry :=
  ids.foldl
    (fun q cid => q.map (fun e => if e.id = cid then { e with committed := true } else e))
    queue

/-- A change record as seen by generate_commit_message: only the project and
filepath keys of the dict are read. -/
structure ChangeView where
  project : String
  filepath : String
deriving DecidableEq, Repr

/-- generate_commit_message of change_tracker.py.  The Python set of
projects is modelled as the deduplicated list of project fields; when its
length is 1 its head plays the role of list(projects)[0] and files[0] is
the head of the filepath list. -/
def generate_commit_message (changes : List ChangeView) : Option String :=
  if changes.isEmpty then none
  else
    let projects := (changes.map (fun c => c.project)).dedup
    if projects.length = 1 then
      let project := projects.headI
      let files := changes.map (fun c => c.filepath)
      if files.length = 1 then some ("[" ++ project ++ "] Update " ++ files.headI)
      else some ("[" ++ project ++ "] Update " ++ toString files.length ++ " files")
    else
      some ("Update " ++ toString changes.length ++ " files across "
            ++ toString projects.length ++ " projects")

/-- The TRACKED_PROJECTS dict of change_tracker.py. -/
def TRACKED_PROJECTS : List (String × String) :=
  [("claude-mailbox", "/home/ubuntu/claude-mailbox"),
   ("agi-news-agent", "/home/ubuntu/agi-news-agent"),
   ("mcp-hub", "/home/ubuntu/mcp-hub-data"),
   ("auto-deployer", "/home/ubuntu/auto-deployer")]

/-- The dict.get lookup TRACKED_PROJECTS.get(project_name). -/
def cfgGet : List (String × String) → String → Option String
  | [], _ => none
  | (k, v) :: rest, name => if k = name then some v else cfgGet rest name

/-- The git subprocess commands commit_to_github can run. -/
inductive GitCmd
  | add
  | commit
  | push
deriving DecidableEq, Repr

/-- The result dict of commit_to_github: one of the error, no_changes or
committed shapes. -/
inductive CommitResult
  | error (msg : String)
  | no_changes
  | committed (message : String)
deriving DecidableEq, Repr

/-- Outcomes of the external subprocess calls made by commit_to_github,
fixed for one invocation.  addRaises models git add -A (run with check=True)
raising CalledProcessError; commitReportsNothing models the string nothing
to commit appearing in the stdout or stderr of git commit; pushSucceeds
models whether git push (run WITHOUT check=True) exits successfully. -/
structure GitEnv where
  isRepo : Bool
  addRaises : Bool
  addErrMsg : String
  commitReportsNothing : Bool
  pushSucceeds : Bool
deriving DecidableEq, Repr

/-- commit_to_github of change_tracker.py, returning the result dict
together with the trace of git commands actually invoked.  Note that the
code runs git push without checking its result, so the committed result is
returned whether or not the push succeeded. -/
def commit_to_github (cfg : List (String × String)) (env : GitEnv)
    (project message : String) : CommitResult × List GitCmd :=
  match cfgGet cfg project with
  | none => (.error ("Unknown project: " ++ project), [])
  | some _ =>
      if env.isRepo = false then (.error "Not a git repository", [])
      else if env.addRaises then (.error env.addErrMsg, [.add])
      else if env.commitReportsNothing then (.no_changes, [.add, .commit])
      else (.committed message, [.add, .commit, .push])

/-- View of a queue row as the dict generate_commit_message reads. -/
def QueueEntry.view (e : QueueEntry) : ChangeView :=
  ⟨e.project, e.filepath⟩

/-- The pending records of one project, as grouped by the commit subcommand
of the main block of change_tracker.py. -/
def batchFor (queue : List QueueEntry) (project : String) : List QueueEntry :=
  (get_pending_changes queue).filter (fun e => e.project = project)

/-- One iteration of the commit subcommand loop of the main block of
change_tracker.py for one project: generate the message from the pending
batch, call commit_to_github, and mark the batch committed exactly when the
result has status committed.  Returns the new database, the result and the
git trace. -/
def commitBatch (cfg : List (String × String)) (env : GitEnv) (db : DB)
    (project : String) : DB × CommitResult × List GitCmd :=
  let batch := batchFor db.changes project
  let msg := (generate_commit_message (batch.map QueueEntry.view)).getD ""
  let rt := commit_to_github cfg env project msg
  match rt.1 with
  | .committed _ =>
      ({ db with changes := mark_committed db.changes (batch.map (fun e => e.id)) }, rt.1, rt.2)
  | _ => (db, rt.1, rt.2)

/-! Include and exclude filtering of should_track in change_tracker.py.
Paths and patterns are modelled as lists of characters; the full path is
the argument and the file name is the part after the last path separator. -/

/-- Boolean list-prefix test, by structural recursion. -/
def isPrefixB : List Char → List Char → Bool
  | [], _ => true
  | _ :: _, [] => false
  | a :: as, b :: bs => a = b && isPrefixB as bs

/-- Boolean list-suffix test: str.endswith of Python. -/
def isSuffixB (suf l : List Char) : Bool :=
  isPrefixB suf.reverse l.reverse

/-- Boolean sublist (substring) test: the Python operator pattern in path. -/
def isSubList (pat : List Char) : List Char → Bool
  | [] => pat.isEmpty
  | c :: t => isPrefixB pat (c :: t) || isSubList pat t

/-- os.path.basename: the characters after the last path separator. -/
def basename (path : List Char) : List Char :=
  path.foldl (fun acc c => if c = '/' then [] else acc ++ [c]) []

/-- The TRACK_PATTERNS constant of change_tracker.py. -/
def TRACK_PATTERNS : List (List Char) :=
  [("*.py" : String).data, ("*.js" : String).data, ("*.md" : String).data,
   ("*.json" : String).data, ("*.sh" : String).data]

/-- The IGNORE_PATTERNS constant of change_tracker.py. -/
def IGNORE_PATTERNS : List (List Char) :=
  [("__pycache__" : String).data, ("*.pyc" : String).data,
   ("node_modules" : String).data, ("*.db" : String).data,
   ("*.log" : String).data, ("*.enc" : String).data]

/-- One ignore-pattern check of should_track: a pattern starting with a star
(pattern.startswith of Python) matches when the file name ends with the rest
of the pattern (pattern[1:]), any other pattern matches when it occurs
inside the full path string. -/
def ignoreMatchB (pat name path : List Char) : Bool :=
  if pat.head? = some '*' then isSuffixB pat.tail name else isSubList pat path

/-- One track-pattern check of should_track: only patterns starting with a
star are consulted, matching on a file-name suffix; any other pattern falls
through without matching. -/
def trackMatchB (pat name : List Char) : Bool :=
  if pat.head? = some '*' then isSuffixB pat.tail name else false

/-- should_track of change_tracker.py: the ignore loop runs first and any
match excludes the file; otherwise the track loop accepts on the first
file-name-suffix match. -/
def should_track (path : List Char) : Bool :=
  let name := basename path
  if IGNORE_PATTERNS.any (fun pat => ignoreMatchB pat name path) then false
  else TRACK_PATTERNS.any (fun pat => trackMatchB pat name)

/-- Specification-side reading of one exclusion pattern: a pattern of the
form star-then-suffix matches when the file name ends with the suffix, any
other pattern matches when it occurs as a contiguous substring of the full
path. -/
def ExclusionMatches (pat name path : List Char) : Prop :=
  if pat.head? = some '*' then pat.tail <:+ name else pat <:+: path

/-- Specification-side reading of one inclusion pattern: the pattern starts
with a star and the file name ends with the rest of the pattern. -/
def InclusionMatches (pat name : List Char) : Prop :=
  pat.head? = some '*' ∧ pat.tail <:+ name

instance (pat name path : List Char) : Decidable (ExclusionMatches pat name path) := by
  unfold ExclusionMatches
  infer_instance

instance (pat name : List Char) : Decidable (InclusionMatches pat name) := by
  unfold InclusionMatches
  infer_instance

/-! Daily commit guarantor of daily_commit_guarantor.py. -/

/-- Observable state of one tracked project directory as seen by
check_any_commit_today: whether the configured directory exists, whether it
holds a .git directory, whether the git log query raises (for example a
timeout), and whether the git log --since today output is nonempty after
stripping. -/
structure ProjectStatus where
  name : String
  dirPresent : Bool
  gitDirPresent : Bool
  logRaises : Bool
  logNonempty : Bool
deriving DecidableEq, Repr

/-- check_commit_today of daily_commit_guarantor.py: false without a .git
directory, false when the git log query raises, otherwise the truthiness of
the stripped output. -/
def check_commit_today (p : ProjectStatus) : Bool :=
  if p.gitDirPresent = false then false
  else if p.logRaises then false
  else p.logNonempty

/-- check_any_commit_today of daily_commit_guarantor.py: one (name, bool)
result per tracked project, false for a missing directory. -/
def check_any_commit_today (projects : List ProjectStatus) : List (String × Bool) :=
  projects.map (fun p => (p.name, if p.dirPresent then check_commit_today p else false))

/-- The two states of the daily guarantor described by the specification. -/
inductive DayState
  | satisfied
  | unsatisfied
deriving DecidableEq, Repr

/-- The has_any_commit accumulation loop of main in
daily_commit_guarantor.py: starts false and is set on every true entry. -/
def hasAnyCommitLoop (commits : List (String × Bool)) : Bool :=
  commits.foldl (fun acc pc => if pc.2 then true else acc) false

/-- main of daily_commit_guarantor.py, reduced to its decision: returns the
day state together with the number of create_stats_commit calls made (the
fallback path calls it exactly once, the satisfied path not at all). -/
def guarantorMain (projects : List ProjectStatus) : DayState × Nat :=
  let commits := check_any_commit_today projects
  if hasAnyCommitLoop commits then (.satisfied, 0) else (.unsatisfied, 1)

/-- A project has an observable commit today when its directory and .git
exist, the git log query does not raise, and the log output is nonempty. -/
def hasCommitToday (p : ProjectStatus) : Bool :=
  p.dirPresent && p.gitDirPresent && !p.logRaises && p.logNonempty

/-! History bound of create_stats_commit in daily_commit_guarantor.py. -/

/-- The Python slice h[-n:]: the last n elements of a list (the whole list
when it is shorter than n). -/
def keepLast (n : Nat) (l : List α) : List α :=
  l.drop (l.length - n)

/-- One create_stats_commit history update: history.append(stats) followed
by history = history[-30:]. -/
def updateHistory (history : List α) (entry : α) : List α :=
  keepLast 30 (history ++ [entry])

/-- A sequence of daily create_stats_commit runs starting from an empty
persisted history: each run loads the previously persisted history and
applies one bounded append. -/
def runAppends (entries : List α) : List α :=
  entries.foldl updateHistory []

/-! Helper lemmas. -/

/-- Deduplicating a nonempty constant list yields the singleton of the
constant. -/
theorem dedup_of_all_eq {changes : List ChangeView} {p : String}
    (hne : changes ≠ []) (hall : ∀ c ∈ changes, c.project = p) :
    (changes.map (fun c => c.project)).dedup = [p] := by
  induction changes with
  | nil => exact absurd rfl hne
  | cons c rest ih =>
      cases rest with
      | nil =>
          have hc : c.project = p := hall c (by simp)
          simp [hc]
      | cons c2 rest2 =>
          have hrec : ((c2 :: rest2).map (fun c => c.project)).dedup = [p] :=
            ih (by simp) (fun x hx => hall x (List.mem_cons_of_mem _ hx))
          have hc : c.project = p := hall c (by simp)
          have hmem : c.project ∈ (c2 :: rest2).map (fun c => c.project) := by
            have : c2.project = p := hall c2 (by simp)
            simp [hc, this]
          calc ((c :: c2 :: rest2).map (fun c => c.project)).dedup
              = ((c2 :: rest2).map (fun c => c.project)).dedup :=
                List.dedup_cons_of_mem hmem
            _ = [p] := hrec

/-- Claim C4.  For a nonempty list of change records the synthesized commit
message is: for a single record, the bracketed project followed by the
path; for several records of one project, the bracketed project with the
record count; and when the records span more than one project, the
cross-project form with the record count and the distinct-project count. -/
theorem commit_message_spec :
    (∀ c : ChangeView,
        generate_commit_message [c] = some ("[" ++ c.project ++ "] Update " ++ c.filepath))
    ∧ (∀ (changes : List ChangeView) (p : String), 1 < changes.length →
        (∀ c ∈ changes, c.project = p) →
        generate_commit_message changes =
          some ("[" ++ p ++ "] Update " ++ toString changes.length ++ " files"))
    ∧ (∀ changes : List ChangeView,
        1 < (changes.map (fun c => c.project)).dedup.length →
        generate_commit_message changes =
          some ("Update " ++ toString changes.length ++ " files across "
                ++ toString (changes.map (fun c => c.project)).dedup.length ++ " projects")) := by
  refine ⟨?_, ?_, ?_⟩
  · intro c
    simp [generate_commit_message]
  · intro changes p hlen hall
    have hne : changes ≠ [] := by
      intro h; subst h; simp at hlen
    have hd : (changes.map (fun c => c.project)).dedup = [p] := dedup_of_all_eq hne hall
    have hfiles : (changes.map (fun c => c.filepath)).length ≠ 1 := by
      rw [List.length_map]; omega
    simp only [generate_commit_message, hd]
    simp [hne, hfiles, List.length_map]
    intro h
    omega
  · intro changes hM
    have hne : changes.isEmpty = false := by
      cases changes with
      | nil => simp at hM
      | cons c rest => simp
    have hlen : (changes.map (fun c => c.project)).dedup.length ≠ 1 := by omega
    simp only [generate_commit_message, hne]
    rw [if_neg (by simp), if_neg hlen]

/-- Claim C4 witness: the three message forms evaluated at concrete record
lists. -/
theorem commit_message_spec_witness :
    generate_commit_message [⟨"p1", "a.py"⟩] = some "[p1] Update a.py"
    ∧ generate_commit_message [⟨"p1", "a.py"⟩, ⟨"p1", "b.py"⟩, ⟨"p1", "c.md"⟩]
        = some "[p1] Update 3 files"
    ∧ generate_commit_message [⟨"p1", "a.py"⟩, ⟨"p2", "b.py"⟩]
        = some "Update 2 files across 2 projects" := by
  refine ⟨?_, ?_, ?_⟩
  · have h := commit_message_spec.1 (⟨"p1", "a.py"⟩ : ChangeView)
    simpa using h
  · have h := commit_message_spec.2.1
      [(⟨"p1", "a.py"⟩ : ChangeView), ⟨"p1", "b.py"⟩, ⟨"p1", "c.md"⟩] "p1"
      (by decide) (by decide)
    simpa using h
  · have h := commit_message_spec.2.2
      [(⟨"p1", "a.py"⟩ : ChangeView), ⟨"p2", "b.py"⟩] (by decide)
    simpa using h

/-- The per-id UPDATE loop of mark_committed is the pointwise map that sets
the committed flag of every row whose id is in the list. -/
theorem mark_committed_eq_map (q : List QueueEntry) (ids : List Nat) :
    mark_committed q ids =
      q.map (fun e => if e.id ∈ ids then { e with committed := true } else e) := by
  induction ids generalizing q with
  | nil =>
      simp [mark_committed]
  | cons i ids ih =>
      show mark_committed
          (q.map (fun e => if e.id = i then { e with committed := true } else e)) ids = _
      rw [ih, List.map_map]
      refine List.map_congr_left ?_
      intro e _
      by_cases hi : e.id = i
      · by_cases hm : e.id ∈ ids <;>
          simp [Function.comp, hi, hm]
      · by_cases hm : e.id ∈ ids <;>
          simp [Function.comp, hi, hm]

/-- Claim C5.  Marking a set of record ids committed twice leaves the queue
exactly as marking it once does, and marking an id whose rows are already
committed changes nothing. -/
theorem mark_committed_idempotent :
    (∀ (q : List QueueEntry) (ids : List Nat),
        mark_committed (mark_committed q ids) ids = mark_committed q ids)
    ∧ (∀ (q : List QueueEntry) (i : Nat),
        (∀ e ∈ q, e.id = i → e.committed = true) →
        mark_committed q [i] = q) := by
  constructor
  · intro q ids
    rw [mark_committed_eq_map, mark_committed_eq_map, List.map_map]
    refine List.map_congr_left ?_
    intro e _
    by_cases hm : e.id ∈ ids <;> simp [Function.comp, hm]
  · intro q i hall
    rw [mark_committed_eq_map]
    have : ∀ e ∈ q, (if e.id ∈ [i] then { e with committed := true } else e) = e := by
      intro e he
      by_cases hi : e.id = i
      · have hc := hall e he hi
        simp [hi]
        cases e
        simp_all
      · simp [hi]
    rw [List.map_congr_left this]
    simp

/-- Claim C5 witness: a queue with one already-committed row and one fresh row,
marked twice with the same id set. -/
theorem mark_committed_idempotent_witness :
    mark_committed (mark_committed
        [⟨1, "p1", "a.py", "added", "New file: a.py", false⟩,
         ⟨2, "p1", "b.py", "added", "New file: b.py", false⟩] [1, 2]) [1, 2]
      = mark_committed
        [⟨1, "p1", "a.py", "added", "New file: a.py", false⟩,
         ⟨2, "p1", "b.py", "added", "New file: b.py", false⟩] [1, 2]
    ∧ mark_committed [⟨1, "p1", "a.py", "added", "New file: a.py", true⟩] [1]
      = [⟨1, "p1", "a.py", "added", "New file: a.py", true⟩] :=
  ⟨mark_committed_idempotent.1 _ _,
   mark_committed_idempotent.2 _ 1 (by decide)⟩

/-- The last-n slice of a list no longer than n is the whole list. -/
theorem keepLast_of_length_le {n : Nat} {l : List α} (h : l.length ≤ n) :
    keepLast n l = l := by
  unfold keepLast
  rw [Nat.sub_eq_zero_of_le h, List.drop_zero]

/-- Truncating before a bounded append gives the same result as truncating
after it: the last-n slice only depends on the last n elements. -/
theorem keepLast_append_keepLast (n : Nat) (hn : 0 < n) (l : List α) (x : α) :
    keepLast n (keepLast n l ++ [x]) = keepLast n (l ++ [x]) := by
  by_cases hle : l.length ≤ n
  · rw [keepLast_of_length_le hle]
  · push_neg at hle
    have h1 : (l.drop (l.length - n)).length = n := by
      rw [List.length_drop]; omega
    show keepLast n (l.drop (l.length - n) ++ [x]) = _
    unfold keepLast
    rw [List.length_append, List.length_append, h1]
    have h2 : n + [x].length - n = 1 := by simp
    rw [h2]
    rw [List.drop_append_of_le_length (by omega),
        List.drop_append_of_le_length (by omega)]
    rw [List.drop_drop]
    have h3 : l.length - n + 1 = l.length + [x].length - n := by simp; omega
    rw [h3]

/-- A sequence of bounded appends starting from the empty history always
persists exactly the last 30 entries of the append sequence. -/
theorem runAppends_eq_keepLast (l : List α) :
    runAppends l = keepLast 30 l := by
  induction l using List.reverseRecOn with
  | nil => rfl
  | append_singleton l x ih =>
      show (l ++ [x]).foldl updateHistory [] = _
      rw [List.foldl_append]
      show updateHistory (runAppends l) x = _
      rw [ih]
      exact keepLast_append_keepLast 30 (by omega) l x

/-- Claim C7.  After 40 daily appends starting from an empty history, the
persisted history is exactly the last 30 appended entries, in append
order. -/
theorem history_bound_spec {α : Type} (entries : List α) (h : entries.length = 40) :
    runAppends entries = entries.drop 10 := by
  rw [runAppends_eq_keepLast]
  unfold keepLast
  rw [h]

/-- Claim C7 witness: 40 concrete appends keep entries 10 through 39. -/
theorem history_bound_spec_witness :
    (List.range 40).length = 40
    ∧ runAppends (List.range 40) = (List.range 40).drop 10 :=
  ⟨by simp, history_bound_spec (List.range 40) (by simp)⟩

/-- The accumulate-true loop of main computes the boolean any of the
commit flags. -/
theorem hasAnyCommitLoop_eq_any (commits : List (String × Bool)) :
    hasAnyCommitLoop commits = commits.any (fun pc => pc.2) := by
  suffices h : ∀ (l : List (String × Bool)) (acc : Bool),
      l.foldl (fun acc pc => if pc.2 then true else acc) acc
        = (acc || l.any (fun pc => pc.2)) by
    simpa [hasAnyCommitLoop] using h commits false
  intro l
  induction l with
  | nil => simp
  | cons a l ih =>
      intro acc
      rw [List.foldl_cons, ih]
      by_cases ha : a.2 = true <;> simp [ha]

/-- The per-project result of check_any_commit_today is the observable
has-commit-today flag of that project. -/
theorem check_entry_eq_hasCommitToday (p : ProjectStatus) :
    (if p.dirPresent then check_commit_today p else false) = hasCommitToday p := by
  cases p with
  | mk name dirPresent gitDirPresent logRaises logNonempty =>
      cases dirPresent <;> cases gitDirPresent <;> cases logRaises <;> cases logNonempty <;>
        simp [check_commit_today, hasCommitToday]

/-- Claim C8.  When no tracked project has an observable commit today the run
ends unsatisfied with exactly one fallback stats-commit attempt; when some
tracked project has one, the run ends satisfied with no fallback attempt. -/
theorem guarantor_spec :
    (∀ projects : List ProjectStatus,
        (∀ p ∈ projects, hasCommitToday p = false) →
        guarantorMain projects = (.unsatisfied, 1))
    ∧ (∀ projects : List ProjectStatus,
        (∃ p ∈ projects, hasCommitToday p = true) →
        guarantorMain projects = (.satisfied, 0)) := by
  have hany : ∀ projects : List ProjectStatus,
      hasAnyCommitLoop (check_any_commit_today projects)
        = projects.any hasCommitToday := by
    intro projects
    rw [hasAnyCommitLoop_eq_any]
    induction projects with
    | nil => rfl
    | cons p ps ih =>
        show ((if p.dirPresent then check_commit_today p else false)
              || (check_any_commit_today ps).any (fun pc => pc.2))
            = (hasCommitToday p || ps.any hasCommitToday)
        rw [check_entry_eq_hasCommitToday, ih]
  constructor
  · intro projects hnone
    have hfalse : projects.any hasCommitToday = false := by
      rw [List.any_eq_false]
      intro p hp
      simp [hnone p hp]
    simp [guarantorMain, hany, hfalse]
  · intro projects hsome
    have htrue : projects.any hasCommitToday = true := by
      rw [List.any_eq_true]
      obtain ⟨p, hp, hc⟩ := hsome
      exact ⟨p, hp, by simp [hc]⟩
    simp [guarantorMain, hany, htrue]

/-- Claim C8 witness: a run over two commit-free projects attempts exactly one
fallback commit, and a run over the same projects with one commit attempts
none. -/
theorem guarantor_spec_witness :
    guarantorMain
        [⟨"auto-deployer", true, true, false, false⟩,
         ⟨"mcp-hub", true, false, false, false⟩] = (.unsatisfied, 1)
    ∧ guarantorMain
        [⟨"auto-deployer", true, true, false, true⟩,
         ⟨"mcp-hub", true, false, false, false⟩] = (.satisfied, 0) :=
  ⟨guarantor_spec.1 _ (by decide),
   guarantor_spec.2 _ ⟨⟨"auto-deployer", true, true, false, true⟩, by decide, by decide⟩⟩

/-- The boolean list-prefix test decides the prefix relation. -/
theorem isPrefixB_iff : ∀ p l : List Char, isPrefixB p l = true ↔ p <+: l := by
  intro p
  induction p with
  | nil =>
      intro l
      simp [isPrefixB, List.nil_prefix]
  | cons a as ih =>
      intro l
      cases l with
      | nil => simp [isPrefixB]
      | cons b bs => simp [isPrefixB, List.cons_prefix_cons, ih]

/-- The boolean suffix test decides the suffix relation. -/
theorem isSuffixB_iff (suf l : List Char) : isSuffixB suf l = true ↔ suf <:+ l := by
  rw [isSuffixB, isPrefixB_iff, List.reverse_prefix]

/-- The boolean sublist test decides the contiguous-substring relation. -/
theorem isSubList_iff (pat : List Char) : ∀ l, isSubList pat l = true ↔ pat <:+: l := by
  intro l
  induction l with
  | nil => simp [isSubList, List.isEmpty_iff, List.infix_nil]
  | cons c t ih =>
      rw [List.infix_cons_iff]
      show (isPrefixB pat (c :: t) || isSubList pat t) = true ↔ _
      rw [Bool.or_eq_true, isPrefixB_iff, ih]

/-- The boolean ignore-pattern check decides the specified exclusion
match. -/
theorem ignoreMatchB_iff (pat name path : List Char) :
    ignoreMatchB pat name path = true ↔ ExclusionMatches pat name path := by
  unfold ignoreMatchB ExclusionMatches
  by_cases h : pat.head? = some '*' <;>
    simp [h, isSuffixB_iff, isSubList_iff]

/-- The boolean track-pattern check decides the specified inclusion
match. -/
theorem trackMatchB_iff (pat name : List Char) :
    trackMatchB pat name = true ↔ InclusionMatches pat name := by
  unfold trackMatchB InclusionMatches
  by_cases h : pat.head? = some '*' <;>
    simp [h, isSuffixB_iff]

/-- Claim C9.  A file is tracked exactly when no exclusion pattern matches it and
some inclusion pattern matches its name by suffix, with exclusion checked
first and winning: a star exclusion pattern matches on a file-name suffix
and any other exclusion pattern matches as a substring of the full path. -/
theorem should_track_spec (path : List Char) :
    should_track path = true ↔
      ((∀ pat ∈ IGNORE_PATTERNS, ¬ ExclusionMatches pat (basename path) path)
        ∧ ∃ pat ∈ TRACK_PATTERNS, InclusionMatches pat (basename path)) := by
  unfold should_track
  by_cases hig :
      (IGNORE_PATTERNS.any fun pat => ignoreMatchB pat (basename path) path) = true
  · rw [if_pos hig]
    rw [List.any_eq_true] at hig
    obtain ⟨pat, hmem, hmatch⟩ := hig
    constructor
    · intro h
      simp at h
    · intro hcontra
      exact absurd ((ignoreMatchB_iff pat (basename path) path).mp hmatch)
        (hcontra.1 pat hmem)
  · rw [if_neg hig]
    have hno : ∀ pat ∈ IGNORE_PATTERNS, ¬ ExclusionMatches pat (basename path) path := by
      rw [Bool.not_eq_true, List.any_eq_false] at hig
      intro pat hmem hmatch
      exact hig pat hmem ((ignoreMatchB_iff pat (basename path) path).mpr hmatch)
    rw [List.any_eq_true]
    constructor
    · rintro ⟨pat, hmem, hmatch⟩
      exact ⟨hno, pat, hmem, (trackMatchB_iff pat (basename path)).mp hmatch⟩
    · rintro ⟨_, pat, hmem, hmatch⟩
      exact ⟨pat, hmem, (trackMatchB_iff pat (basename path)).mpr hmatch⟩

/-- Claim C9 witness: a Python file in a normal directory is tracked, and the
tracking decision agrees with the specified filter reading on it. -/
theorem should_track_spec_witness :
    should_track ("/home/ubuntu/claude-mailbox/app.py" : String).data = true :=
  (should_track_spec ("/home/ubuntu/claude-mailbox/app.py" : String).data).mpr
    (by decide)

/-- Inserting a row for a key that is absent makes the lookup of that key
return the inserted hash. -/
theorem lookupHash_insert_self (store : List FileHashEntry) (p r h : String)
    (hnone : lookupHash store p r = none) :
    lookupHash (insertHash store p r h) p r = some h := by
  induction store with
  | nil => simp [insertHash, lookupHash]
  | cons e rest ih =>
      by_cases hm : e.project = p ∧ e.filepath = r
      · rw [lookupHash, if_pos hm] at hnone
        cases hnone
      · rw [lookupHash, if_neg hm] at hnone
        show lookupHash (e :: (rest ++ [⟨p, r, h⟩])) p r = some h
        rw [lookupHash, if_neg hm]
        exact ih hnone

/-- Updating the hash of a key that is present makes the lookup of that key
return the new hash. -/
theorem lookupHash_update_self (store : List FileHashEntry) (p r h h0 : String)
    (hsome : lookupHash store p r = some h0) :
    lookupHash (updateHash store p r h) p r = some h := by
  induction store with
  | nil => cases hsome
  | cons e rest ih =>
      by_cases hm : e.project = p ∧ e.filepath = r
      · show lookupHash
            ((if e.project = p ∧ e.filepath = r then { e with hash := h } else e)
              :: updateHash rest p r h) p r = some h
        rw [if_pos hm, lookupHash, if_pos (by simpa using hm)]
      · rw [lookupHash, if_neg hm] at hsome
        show lookupHash
            ((if e.project = p ∧ e.filepath = r then { e with hash := h } else e)
              :: updateHash rest p r h) p r = some h
        rw [if_neg hm, lookupHash, if_neg hm]
        exact ih hsome

/-- Updating a hash leaves the (project, filepath) keys of the table
unchanged: the write is in place. -/
theorem updateHash_keys (store : List FileHashEntry) (p r h : String) :
    (updateHash store p r h).map (fun e => (e.project, e.filepath))
      = store.map (fun e => (e.project, e.filepath)) := by
  unfold updateHash
  rw [List.map_map]
  refine List.map_congr_left ?_
  intro e _
  by_cases hm : e.project = p ∧ e.filepath = r <;> simp [Function.comp, hm]

/-- Claim C1.  For a single surviving file with relative path r and content hash
h: an absent fingerprint yields exactly one added record and an insert of
the hash; a differing fingerprint yields exactly one modified record and an
in-place hash update; an equal fingerprint yields no record and no table
write. -/
theorem scan_step_cases (p r h : String) (store : List FileHashEntry)
    (recs : List ChangeRec) :
    (lookupHash store p r = none →
      scanStep p (store, recs) (r, h) = (insertHash store p r h, recs ++ [mkAdded p r])
      ∧ lookupHash (scanStep p (store, recs) (r, h)).1 p r = some h)
    ∧ (∀ h0, lookupHash store p r = some h0 → h0 ≠ h →
      (scanStep p (store, recs) (r, h)).2 = recs ++ [mkModified p r]
      ∧ lookupHash (scanStep p (store, recs) (r, h)).1 p r = some h
      ∧ (scanStep p (store, recs) (r, h)).1.map (fun e => (e.project, e.filepath))
          = store.map (fun e => (e.project, e.filepath)))
    ∧ (lookupHash store p r = some h →
      scanStep p (store, recs) (r, h) = (store, recs)) := by
  refine ⟨?_, ?_, ?_⟩
  · intro hn
    have hstep : scanStep p (store, recs) (r, h)
        = (insertHash store p r h, recs ++ [mkAdded p r]) := by
      unfold scanStep
      rw [hn]
    refine ⟨hstep, ?_⟩
    rw [hstep]
    exact lookupHash_insert_self store p r h hn
  · intro h0 hs hne
    have hstep : scanStep p (store, recs) (r, h)
        = (updateHash store p r h, recs ++ [mkModified p r]) := by
      simp [scanStep, hs, hne]
    rw [hstep]
    exact ⟨rfl, lookupHash_update_self store p r h h0 hs, updateHash_keys store p r h⟩
  · intro hs
    simp [scanStep, hs]

/-- Claim C1 witness: the three fingerprint cases evaluated on concrete
one-row stores. -/
theorem scan_step_cases_witness :
    (scanStep "p1" ([], []) ("a.py", "h1")
        = ([⟨"p1", "a.py", "h1"⟩], [mkAdded "p1" "a.py"])
      ∧ lookupHash (scanStep "p1" ([], []) ("a.py", "h1")).1 "p1" "a.py" = some "h1")
    ∧ ((scanStep "p1" ([⟨"p1", "a.py", "h0"⟩], []) ("a.py", "h1")).2 = [mkModified "p1" "a.py"]
      ∧ lookupHash (scanStep "p1" ([⟨"p1", "a.py", "h0"⟩], []) ("a.py", "h1")).1 "p1" "a.py"
          = some "h1"
      ∧ (scanStep "p1" ([⟨"p1", "a.py", "h0"⟩], []) ("a.py", "h1")).1.map
            (fun e => (e.project, e.filepath))
          = ([⟨"p1", "a.py", "h0"⟩] : List FileHashEntry).map
              (fun e => (e.project, e.filepath)))
    ∧ scanStep "p1" ([⟨"p1", "a.py", "h1"⟩], []) ("a.py", "h1")
        = ([⟨"p1", "a.py", "h1"⟩], []) :=
  ⟨by
      have h := (scan_step_cases "p1" "a.py" "h1" [] []).1 (by decide)
      simpa [insertHash] using h,
   (scan_step_cases "p1" "a.py" "h1" [⟨"p1", "a.py", "h0"⟩] []).2.1 "h0"
      (by decide) (by decide),
   (scan_step_cases "p1" "a.py" "h1" [⟨"p1", "a.py", "h1"⟩] []).2.2 (by decide)⟩

/-- Claim C3.  When the version-control tool reports nothing to commit, the
commit operation returns no_changes, the git trace stops before any push,
and the database (in particular every committed flag) is unchanged. -/
theorem commit_nothing_spec (cfg : List (String × String)) (env : GitEnv)
    (db : DB) (project : String)
    (hsome : (cfgGet cfg project).isSome = true)
    (hrepo : env.isRepo = true) (hadd : env.addRaises = false)
    (hnc : env.commitReportsNothing = true) :
    commitBatch cfg env db project = (db, .no_changes, [.add, .commit])
    ∧ GitCmd.push ∉ (commitBatch cfg env db project).2.2 := by
  obtain ⟨path, hpath⟩ := Option.isSome_iff_exists.mp hsome
  have hc : ∀ msg, commit_to_github cfg env project msg = (.no_changes, [.add, .commit]) := by
    intro msg
    unfold commit_to_github
    rw [hpath]
    simp [hrepo, hadd, hnc]
  have hb : commitBatch cfg env db project = (db, .no_changes, [.add, .commit]) := by
    simp [commitBatch, hc]
  refine ⟨hb, ?_⟩
  rw [hb]
  simp

/-- Claim C3 witness: a concrete nothing-to-commit run over the tracked-project
configuration leaves a one-row queue untouched and never pushes. -/
theorem commit_nothing_spec_witness :
    commitBatch TRACKED_PROJECTS ⟨true, false, "", true, true⟩
        ⟨[], [⟨1, "auto-deployer", "app.py", "modified", "Modified: app.py", false⟩]⟩
        "auto-deployer"
      = (⟨[], [⟨1, "auto-deployer", "app.py", "modified", "Modified: app.py", false⟩]⟩,
         .no_changes, [.add, .commit])
    ∧ GitCmd.push ∉ (commitBatch TRACKED_PROJECTS ⟨true, false, "", true, true⟩
        ⟨[], [⟨1, "auto-deployer", "app.py", "modified", "Modified: app.py", false⟩]⟩
        "auto-deployer").2.2 :=
  commit_nothing_spec TRACKED_PROJECTS ⟨true, false, "", true, true⟩
    ⟨[], [⟨1, "auto-deployer", "app.py", "modified", "Modified: app.py", false⟩]⟩
    "auto-deployer" (by decide) rfl rfl rfl

/-- Claim C10.  A commit request for a project missing from the tracked-projects
configuration returns the unknown-project error, runs no git command, and
leaves the fingerprint table and the change queue exactly as they were. -/
theorem commit_unknown_spec (cfg : List (String × String)) (env : GitEnv)
    (db : DB) (project : String) (hnone : cfgGet cfg project = none) :
    commitBatch cfg env db project
      = (db, .error ("Unknown project: " ++ project), []) := by
  have hc : ∀ msg, commit_to_github cfg env project msg
      = (.error ("Unknown project: " ++ project), []) := by
    intro msg
    unfold commit_to_github
    rw [hnone]
  simp [commitBatch, hc]

/-- Claim C10 witness: a project name outside TRACKED_PROJECTS is rejected
without touching a nonempty database. -/
theorem commit_unknown_spec_witness :
    commitBatch TRACKED_PROJECTS ⟨true, false, "", false, true⟩
        ⟨[⟨"p1", "a.py", "h1"⟩],
         [⟨1, "no-such-project", "a.py", "added", "New file: a.py", false⟩]⟩
        "no-such-project"
      = (⟨[⟨"p1", "a.py", "h1"⟩],
          [⟨1, "no-such-project", "a.py", "added", "New file: a.py", false⟩]⟩,
         .error "Unknown project: no-such-project", []) :=
  commit_unknown_spec TRACKED_PROJECTS ⟨true, false, "", false, true⟩
    ⟨[⟨"p1", "a.py", "h1"⟩],
     [⟨1, "no-such-project", "a.py", "added", "New file: a.py", false⟩]⟩
    "no-such-project" (by decide)

/-- Claim C2, code-bug demonstration.  commit_to_github runs git push without
checking its exit status, so with every pre-push step succeeding and the
push itself failing the function still answers committed, the main commit
loop still marks the batch committed, and the record is no longer pending:
the failed(reason) report and the at-least-once retention the specification
requires do not happen. -/
theorem push_failure_still_marked_committed :
    (⟨true, false, "", false, false⟩ : GitEnv).pushSucceeds = false
    ∧ commitBatch TRACKED_PROJECTS ⟨true, false, "", false, false⟩
        ⟨[], [⟨1, "auto-deployer", "app.py", "modified", "Modified: app.py", false⟩]⟩
        "auto-deployer"
      = (⟨[], [⟨1, "auto-deployer", "app.py", "modified", "Modified: app.py", true⟩]⟩,
         .committed "[auto-deployer] Update app.py", [.add, .commit, .push])
    ∧ get_pending_changes
        (commitBatch TRACKED_PROJECTS ⟨true, false, "", false, false⟩
          ⟨[], [⟨1, "auto-deployer", "app.py", "modified", "Modified: app.py", false⟩]⟩
          "auto-deployer").1.changes = [] := by
  refine ⟨rfl, ?_, ?_⟩ <;> decide

/-- Looking a key up in an appended table reads the left part first. -/
theorem lookupHash_append (t : List FileHashEntry) (q r : String) :
    ∀ s : List FileHashEntry, lookupHash (s ++ t) q r =
      match lookupHash s q r with
      | some h => some h
      | none => lookupHash t q r := by
  intro s
  induction s with
  | nil => simp [lookupHash]
  | cons e rest ih =>
      by_cases hm : e.project = q ∧ e.filepath = r
      · show lookupHash (e :: (rest ++ t)) q r = _
        rw [lookupHash, if_pos hm, lookupHash, if_pos hm]
      · show lookupHash (e :: (rest ++ t)) q r = _
        rw [lookupHash, if_neg hm, lookupHash, if_neg hm, ih]

/-- Updating the hash stored for one relative path does not change the
lookup of any other relative path. -/
theorem lookupHash_update_other (p r h r' : String) (hne : r' ≠ r) :
    ∀ s : List FileHashEntry,
      lookupHash (updateHash s p r h) p r' = lookupHash s p r' := by
  intro s
  induction s with
  | nil => rfl
  | cons e rest ih =>
      show lookupHash
          ((if e.project = p ∧ e.filepath = r then { e with hash := h } else e)
            :: updateHash rest p r h) p r' = _
      by_cases hm : e.project = p ∧ e.filepath = r
      · rw [if_pos hm]
        have hq : ¬(e.project = p ∧ e.filepath = r') := by
          rintro ⟨_, hr⟩
          exact hne (hr.symm.trans hm.2)
        rw [lookupHash, lookupHash, if_neg (by simpa using hq), if_neg hq, ih]
      · rw [if_neg hm, lookupHash, lookupHash]
        by_cases hq : e.project = p ∧ e.filepath = r'
        · rw [if_pos hq, if_pos hq]
        · rw [if_neg hq, if_neg hq, ih]

/-- One scan step over one file does not change the lookup of any other
relative path. -/
theorem scanStep_lookup_other (p : String) (st : List FileHashEntry × List ChangeRec)
    (f : String × String) (r' : String) (hne : r' ≠ f.1) :
    lookupHash (scanStep p st f).1 p r' = lookupHash st.1 p r' := by
  rcases hm : lookupHash st.1 p f.1 with _ | h0
  · have hstep : (scanStep p st f).1 = st.1 ++ [⟨p, f.1, f.2⟩] := by
      simp [scanStep, hm, insertHash]
    rw [hstep, lookupHash_append]
    rcases hl : lookupHash st.1 p r' with _ | hv
    · show lookupHash [⟨p, f.1, f.2⟩] p r' = none
      rw [lookupHash, if_neg (by rintro ⟨_, hr⟩; exact hne hr.symm)]
      rfl
    · rfl
  · by_cases heq : h0 = f.2
    · simp [scanStep, hm, heq]
    · have hstep : (scanStep p st f).1 = updateHash st.1 p f.1 f.2 := by
        simp [scanStep, hm, heq]
      rw [hstep, lookupHash_update_other p f.1 f.2 r' hne]

/-- A scan over files that do not use a relative path does not change the
lookup of that path. -/
theorem scanGo_lookup_other (p : String) (r' : String) :
    ∀ (files : List (String × String)) (st : List FileHashEntry × List ChangeRec),
      r' ∉ files.map Prod.fst →
      lookupHash (scanGo p st files).1 p r' = lookupHash st.1 p r' := by
  intro files
  induction files with
  | nil =>
      intro st _
      rfl
  | cons f rest ih =>
      intro st hmem
      have h1 : r' ≠ f.1 := by
        intro h
        exact hmem (by simp [h])
      have h2 : r' ∉ rest.map Prod.fst := by
        intro h
        exact hmem (by simp [h])
      show lookupHash (scanGo p (scanStep p st f) rest).1 p r' = _
      rw [ih (scanStep p st f) h2, scanStep_lookup_other p st f r' h1]

/-- After one scan step over a file, the lookup of its relative path holds
its content hash, in every fingerprint case. -/
theorem scanStep_lookup_self (p : String) (st : List FileHashEntry × List ChangeRec)
    (f : String × String) :
    lookupHash (scanStep p st f).1 p f.1 = some f.2 := by
  rcases hm : lookupHash st.1 p f.1 with _ | h0
  · have hstep : (scanStep p st f).1 = insertHash st.1 p f.1 f.2 := by
      simp [scanStep, hm, insertHash]
    rw [hstep]
    exact lookupHash_insert_self st.1 p f.1 f.2 hm
  · by_cases heq : h0 = f.2
    · have hstep : (scanStep p st f).1 = st.1 := by
        simp [scanStep, hm, heq]
      rw [hstep, hm, heq]
    · have hstep : (scanStep p st f).1 = updateHash st.1 p f.1 f.2 := by
        simp [scanStep, hm, heq]
      rw [hstep]
      exact lookupHash_update_self st.1 p f.1 f.2 h0 hm

/-- After a scan over files with pairwise distinct relative paths, the
lookup of every scanned file returns the hash observed for it. -/
theorem scanGo_lookup_mem (p : String) :
    ∀ (files : List (String × String)) (st : List FileHashEntry × List ChangeRec),
      (files.map Prod.fst).Nodup →
      ∀ rh ∈ files, lookupHash (scanGo p st files).1 p rh.1 = some rh.2 := by
  intro files
  induction files with
  | nil =>
      intro st _ rh hrh
      cases hrh
  | cons f rest ih =>
      intro st hnd rh hrh
      rw [List.map_cons] at hnd
      have hnd' : (rest.map Prod.fst).Nodup := (List.nodup_cons.mp hnd).2
      rcases List.mem_cons.mp hrh with rfl | hrh'
      · have hnotin : rh.1 ∉ rest.map Prod.fst := (List.nodup_cons.mp hnd).1
        show lookupHash (scanGo p (scanStep p st rh) rest).1 p rh.1 = some rh.2
        rw [scanGo_lookup_other p rh.1 rest (scanStep p st rh) hnotin]
        exact scanStep_lookup_self p st rh
      · exact ih (scanStep p st f) hnd' rh hrh'

/-- A scan over files whose hashes all agree with the stored fingerprints
is a no-op: no record is emitted and no write happens. -/
theorem scanGo_noop (p : String) :
    ∀ (files : List (String × String)) (st : List FileHashEntry × List ChangeRec),
      (∀ rh ∈ files, lookupHash st.1 p rh.1 = some rh.2) →
      scanGo p st files = st := by
  intro files
  induction files with
  | nil =>
      intro st _
      rfl
  | cons f rest ih =>
      intro st hall
      have hstep : scanStep p st f = st := by
        have hf : lookupHash st.1 p f.1 = some f.2 := hall f (by simp)
        simp [scanStep, hf]
      show scanGo p (scanStep p st f) rest = st
      rw [hstep]
      exact ih st (fun rh hrh => hall rh (List.mem_cons_of_mem _ hrh))

/-- Claim C6.  Scanning a project twice over the same working-tree content, with
pairwise distinct relative paths, emits zero change records on the second
scan. -/
theorem scan_twice_no_records (p : String) (files : List (String × String))
    (store : List FileHashEntry) (hnd : (files.map Prod.fst).Nodup) :
    (scan_project p files (scan_project p files store).1).2 = [] := by
  have hall : ∀ rh ∈ files,
      lookupHash (scan_project p files store).1 p rh.1 = some rh.2 := by
    intro rh hrh
    exact scanGo_lookup_mem p files (store, []) hnd rh hrh
  have hnoop : scanGo p ((scan_project p files store).1, []) files
      = ((scan_project p files store).1, []) :=
    scanGo_noop p files ((scan_project p files store).1, []) hall
  show (scanGo p ((scan_project p files store).1, []) files).2 = []
  rw [hnoop]

/-- Claim C6 witness: two files scanned from an empty store, then rescanned with
the same contents; the second scan is silent. -/
theorem scan_twice_no_records_witness :
    ((([("a.py", "h1"), ("b.py", "h2")] : List (String × String)).map Prod.fst).Nodup
      ∧ (scan_project "p1" [("a.py", "h1"), ("b.py", "h2")]
          (scan_project "p1" [("a.py", "h1"), ("b.py", "h2")] []).1).2 = []) :=
  ⟨by decide,
   scan_twice_no_records "p1" [("a.py", "h1"), ("b.py", "h2")] [] (by decide)⟩

end VMAutoDeployer
